import Mathlib

/-!
Verification of the hiveplotlib-javascript rendering pipeline
(`hive_plots_d3_viz.js`): a shallow embedding of the style-normalization
utilities, the colormap/linestyle lookup tables, and the four primitive
renderers (`plotAxes`, `plotNodes`, `plotEdges`, `plotLabels`) together with
the orchestrator `visualizeHivePlot`, followed by theorems settling the
specification's claims about them.

JavaScript numbers are modelled as rationals, JSON values as the inductive
`JsVal`, and JavaScript objects (styling dictionaries) as ordered
association lists `Kwargs`.  Operations that can throw in JavaScript
(indexing a missing `curves` array, calling `d3.extent` on a non-iterable)
are modelled with `Option`: `none` is an unhandled failure.
-/

/-- A JSON/JavaScript value as it appears in hiveplotlib styling
dictionaries: `null`, booleans, numbers, strings and arrays. -/
inductive JsVal where
  | null
  | boolean (b : Bool)
  | num (q : ℚ)
  | str (s : String)
  | arr (elems : List JsVal)

/-- A JavaScript object used as a keyword-style dictionary: an ordered list
of key/value bindings (JS objects preserve insertion order and have unique
keys). -/
def Kwargs (V : Type) : Type := List (String × V)

/-- Property read `obj[key]`: the value bound to `key`, if present. -/
def getK {V : Type} (k : Kwargs V) (key : String) : Option V :=
  match k with
  | [] => none
  | (a, v) :: rest => if a = key then some v else getK rest key

/-- The JavaScript `key in obj` test. -/
def hasK {V : Type} (k : Kwargs V) (key : String) : Bool :=
  (getK k key).isSome

/-- Property assignment `obj[key] = v`: replaces the binding in place when
the key is present, appends a new binding otherwise (JS insertion-order
semantics). -/
def setK {V : Type} (k : Kwargs V) (key : String) (v : V) : Kwargs V :=
  match k with
  | [] => [(key, v)]
  | (a, w) :: rest => if a = key then (a, v) :: rest else (a, w) :: setK rest key v

/-- The JavaScript `delete obj[key]` statement. -/
def delK {V : Type} (k : Kwargs V) (key : String) : Kwargs V :=
  k.filter (fun p => p.1 ≠ key)

/-- One alias-resolution step, the repeated pattern of
`normalizeEdgeKwargs`/`normalizeNodeKwargs`:
`if (src in normalized && !(canonical in normalized)) {
   normalized[canonical] = normalized[src]; delete normalized[src]; }`. -/
def resolveAlias {V : Type} (normalized : Kwargs V) (src canonical : String) : Kwargs V :=
  match getK normalized src, getK normalized canonical with
  | some v, none => delK (setK normalized canonical v) src
  | _, _ => normalized

/-- `normalizeEdgeKwargs` (hive_plots_d3_viz.js lines 15-26): starts from a
spread copy of `kwargs` and resolves `lw` → `linewidth` and
`ls` → `linestyle`. -/
def normalizeEdgeKwargs {V : Type} (kwargs : Kwargs V) : Kwargs V :=
  resolveAlias (resolveAlias kwargs "lw" "linewidth") "ls" "linestyle"

/-- The fill-color resolution step of `normalizeNodeKwargs`
(lines 36-46): the `else if` chain with priority facecolor > color > c;
only the winning key is renamed to `_fill` and deleted. -/
def resolveNodeFill {V : Type} (normalized : Kwargs V) : Kwargs V :=
  match getK normalized "facecolor" with
  | some v => delK (setK normalized "_fill" v) "facecolor"
  | none =>
    match getK normalized "color" with
    | some v => delK (setK normalized "_fill" v) "color"
    | none =>
      match getK normalized "c" with
      | some v => delK (setK normalized "_fill" v) "c"
      | none => normalized

/-- `normalizeNodeKwargs` (lines 34-58): fill-color resolution, then the
`size` → `s` and `edgecolors` → `edgecolor` aliases. -/
def normalizeNodeKwargs {V : Type} (kwargs : Kwargs V) : Kwargs V :=
  resolveAlias (resolveAlias (resolveNodeFill kwargs) "size" "s") "edgecolors" "edgecolor"

/-- The pair (argument object after the call, returned object) for a call
`normalizeEdgeKwargs(kwargs)`: every mutation in the body targets the
spread copy `normalized`; no statement assigns into `kwargs`, so the
argument is observed unchanged after the call. -/
def normalizeEdgeKwargsCall {V : Type} (kwargs : Kwargs V) : Kwargs V × Kwargs V :=
  (kwargs, normalizeEdgeKwargs kwargs)

/-- `linestyleToDasharray` (lines 65-77): matplotlib linestyle name to SVG
stroke-dasharray; `none` models the `null` used for solid lines, which is
also the `?? null` fallback for unrecognized names. -/
def linestyleToDasharray (ls : String) : Option String :=
  match ls with
  | "-" => none
  | "solid" => none
  | "--" => some "5,5"
  | "dashed" => some "5,5"
  | ":" => some "2,2"
  | "dotted" => some "2,2"
  | "-." => some "5,2,2,2"
  | "dashdot" => some "5,2,2,2"
  | _ => none

/-- The d3 colormap interpolator functions referenced by the lookup table in
`cmapToD3Interpolator` (lines 84-125).  They are opaque library functions;
each distinct d3 export is one constructor, so constructor equality models
reference equality of the functions. -/
inductive D3Interp where
  | interpolateViridis
  | interpolatePlasma
  | interpolateInferno
  | interpolateMagma
  | interpolateCividis
  | interpolateWarm
  | interpolateCool
  | interpolateTurbo
  | interpolateBlues
  | interpolateGreens
  | interpolateGreys
  | interpolateOranges
  | interpolatePurples
  | interpolateReds
  | interpolateBuGn
  | interpolateBuPu
  | interpolateGnBu
  | interpolateOrRd
  | interpolatePuBu
  | interpolatePuBuGn
  | interpolatePuRd
  | interpolateRdPu
  | interpolateYlGn
  | interpolateYlGnBu
  | interpolateYlOrBr
  | interpolateYlOrRd
  | interpolateBrBG
  | interpolatePRGn
  | interpolatePiYG
  | interpolatePuOr
  | interpolateRdBu
  | interpolateRdGy
  | interpolateRdYlBu
  | interpolateRdYlGn
  | interpolateSpectral
  | interpolateRainbow
deriving DecidableEq

/-- The name → interpolator table of `cmapToD3Interpolator`, in source
order.  Note `"coolwarm"` is bound to the same d3 function as `"RdBu"`. -/
def cmapTable : Kwargs D3Interp :=
  [("viridis", .interpolateViridis),
   ("plasma", .interpolatePlasma),
   ("inferno", .interpolateInferno),
   ("magma", .interpolateMagma),
   ("cividis", .interpolateCividis),
   ("warm", .interpolateWarm),
   ("cool", .interpolateCool),
   ("turbo", .interpolateTurbo),
   ("Blues", .interpolateBlues),
   ("Greens", .interpolateGreens),
   ("Greys", .interpolateGreys),
   ("Oranges", .interpolateOranges),
   ("Purples", .interpolatePurples),
   ("Reds", .interpolateReds),
   ("BuGn", .interpolateBuGn),
   ("BuPu", .interpolateBuPu),
   ("GnBu", .interpolateGnBu),
   ("OrRd", .interpolateOrRd),
   ("PuBu", .interpolatePuBu),
   ("PuBuGn", .interpolatePuBuGn),
   ("PuRd", .interpolatePuRd),
   ("RdPu", .interpolateRdPu),
   ("YlGn", .interpolateYlGn),
   ("YlGnBu", .interpolateYlGnBu),
   ("YlOrBr", .interpolateYlOrBr),
   ("YlOrRd", .interpolateYlOrRd),
   ("BrBG", .interpolateBrBG),
   ("PRGn", .interpolatePRGn),
   ("PiYG", .interpolatePiYG),
   ("PuOr", .interpolatePuOr),
   ("RdBu", .interpolateRdBu),
   ("RdGy", .interpolateRdGy),
   ("RdYlBu", .interpolateRdYlBu),
   ("RdYlGn", .interpolateRdYlGn),
   ("Spectral", .interpolateSpectral),
   ("coolwarm", .interpolateRdBu),
   ("rainbow", .interpolateRainbow)]

/-- `cmapToD3Interpolator` (lines 84-125): `map[cmapName] ?? d3.interpolateViridis`.
A missing (`undefined`) name is `none`. -/
def cmapToD3Interpolator (cmapName : Option String) : D3Interp :=
  (cmapName.bind (getK cmapTable)).getD .interpolateViridis

/-- The recognized colormap names: the keys of the lookup table. -/
def recognizedCmapNames : List String :=
  cmapTable.map Prod.fst

/-- `scatterSizeToRadius` (lines 132-134): `Math.sqrt(s / Math.PI)`. -/
noncomputable def scatterSizeToRadius (s : ℝ) : ℝ :=
  Real.sqrt (s / Real.pi)

/-- JavaScript truthiness of a value (`none` models `undefined`). -/
def jsTruthy (v : Option JsVal) : Bool :=
  match v with
  | none => false
  | some .null => false
  | some (.boolean b) => b
  | some (.num q) => q != 0
  | some (.str s) => s != ""
  | some (.arr _) => true

/-- `Array.isArray(v)`. -/
def isJsArray (v : Option JsVal) : Bool :=
  match v with
  | some (.arr _) => true
  | _ => false

/-- Array indexing `v[i]` for the modelled schema, where `v` is expected to
be an array; out-of-range access is `undefined` (`none`). -/
def jsIndex (v : Option JsVal) (i : Nat) : Option JsVal :=
  match v with
  | some (.arr xs) => xs.get? i
  | _ => none

/-- The scalar-or-array pick with nullish default used for `alpha`,
`linewidth` and `s`:
`Array.isArray(v) ? v[i] : (v ?? dflt)`. -/
def pickJs (v : Option JsVal) (i : Nat) (dflt : JsVal) : Option JsVal :=
  match v with
  | some (.arr xs) => xs.get? i
  | some .null => some dflt
  | some w => some w
  | none => some dflt

/-- The numeric value of a `JsVal`, when it is a number. -/
def asNum (v : JsVal) : Option ℚ :=
  match v with
  | .num q => some q
  | _ => none

/-- The colormap name actually honored by the lookup table: kwargs `cmap`
values that are not strings never match a table key. -/
def asCmapName (v : Option JsVal) : Option String :=
  match v with
  | some (.str s) => some s
  | _ => none

/-- `d3.extent` over an array of JSON values, restricted to the schema's
numeric entries (d3 skips non-comparable values): the (min, max) of the
numbers in the list, `none` when there are none. -/
def d3extentNums (xs : List JsVal) : Option ℚ × Option ℚ :=
  ((xs.filterMap asNum).min?, (xs.filterMap asNum).max?)

/-- The node sequences of one axis (`nodes.x` / `nodes.y`); `unique_id` is
not read by any renderer and is omitted. -/
structure NodeSet where
  x : List ℚ
  y : List ℚ

/-- One axis record of the hiveplotlib JSON: `start`/`end` line segment,
optional `angle` (absent in older exports), optional `long_name`, and the
node coordinate sequences. -/
structure AxisSpec where
  start : ℚ × ℚ
  end_ : ℚ × ℚ
  angle : Option ℚ
  long_name : Option String
  nodes : NodeSet

/-- One tag's edge group: `ids` (one pair per edge), `curves` (one
coordinate polyline per edge) and the optional `edge_kwargs` styling
dictionary.  `ids`/`curves` are `Option` because either may be absent in
style-only placeholder groups. -/
structure EdgeGroup where
  ids : Option (List (String × String))
  curves : Option (List (List (ℚ × ℚ)))
  edge_kwargs : Option (Kwargs JsVal)

/-- The three-level `edges` mapping: source axis → target axis → tag →
edge group, as ordered association lists. -/
def EdgesMap : Type :=
  List (String × List (String × List (String × EdgeGroup)))

/-- The root hiveplotlib JSON document. -/
structure HivePlotData where
  axes : List (String × AxisSpec)
  edges : Option EdgesMap
  node_viz_kwargs : Option (Kwargs (Kwargs JsVal))

/-- One axis line emitted by `plotAxes` (stroke black, width 1.5, opacity
0.5 are fixed attributes and carry no per-axis data). -/
structure AxisPrim where
  p1 : ℚ × ℚ
  p2 : ℚ × ℚ

/-- `plotAxes` (lines 267-296): one line primitive per axis, from the
scaled `start` to the scaled `end`. -/
def plotAxes (data : HivePlotData) (x y : ℚ → ℚ) : List AxisPrim :=
  data.axes.map (fun entry =>
    { p1 := (x entry.2.start.1, y entry.2.start.2),
      p2 := (x entry.2.end_.1, y entry.2.end_.2) })

/-- A stroke attribute value for an edge: either the result of applying a
sequential color scale (an opaque d3 function, identified by its
interpolator and domain) to a value, or a literal value (`none` models
`undefined`, i.e. the attribute removed). -/
inductive StrokeVal where
  | scaled (interp : D3Interp) (domLo domHi : Option JsVal) (arg : Option JsVal)
  | lit (v : Option JsVal)

/-- One edge path primitive emitted by `plotEdges` (`fill` is always
`"none"` and the class is `"edge"`; both are fixed). -/
structure EdgePrim where
  dPath : List (ℚ × ℚ)
  stroke : StrokeVal
  strokeOpacity : Option JsVal
  strokeWidth : Option JsVal
  dasharray : Option String

/-- The sequential color-scale setup of `plotEdges` (lines 391-396):
`if (kwargs.array) { interpolator; domain = kwargs.clim || d3.extent(kwargs.array); }`.
Outer `none` models the `d3.extent` TypeError on a truthy non-array value;
`some none` means no color scale.  The domain is the pair of endpoint
values handed to `.domain(...)`: the two entries of a truthy `clim`, or the
extent of the `array` values. -/
def edgeColorScale (kwargs : Kwargs JsVal) : Option (Option (D3Interp × Option JsVal × Option JsVal)) :=
  if jsTruthy (getK kwargs "array") then
    let interp := cmapToD3Interpolator (asCmapName (getK kwargs "cmap"))
    if jsTruthy (getK kwargs "clim") then
      some (some (interp, jsIndex (getK kwargs "clim") 0, jsIndex (getK kwargs "clim") 1))
    else
      match getK kwargs "array" with
      | some (.arr xs) =>
        some (some (interp, (d3extentNums xs).1.map JsVal.num, (d3extentNums xs).2.map JsVal.num))
      | _ => none
  else some none

/-- The body of the `curveIdx` loop of `plotEdges` (lines 398-436): one
path primitive for edge `curveIdx` of a group.  `none` models the failure
when `curves` is absent or shorter than `ids` (`d3.line` throws on an
undefined datum). -/
def renderOneEdge (x y : ℚ → ℚ) (g : EdgeGroup) (kwargs : Kwargs JsVal)
    (colorScale : Option (D3Interp × Option JsVal × Option JsVal))
    (curveIdx : Nat) : Option EdgePrim :=
  match (g.curves.getD []).get? curveIdx with
  | none => none
  | some curveData =>
    some
      { dPath := curveData.map (fun p => (x p.1, y p.2)),
        stroke :=
          -- `if (colorScale && kwargs.array)`: colorScale is non-null
          -- exactly when `kwargs.array` is truthy, so the match on
          -- colorScale decides the branch
          match colorScale with
          | some (interp, lo, hi) =>
            .scaled interp lo hi (jsIndex (getK kwargs "array") curveIdx)
          | none =>
            match getK kwargs "color" with
            | some (.arr cs) => .lit (cs.get? curveIdx)
            | cv => .lit (some (if jsTruthy cv then cv.getD (.str "black") else .str "black")),
        strokeOpacity := pickJs (getK kwargs "alpha") curveIdx (.num (1/2)),
        strokeWidth := pickJs (getK kwargs "linewidth") curveIdx (.num (3/2)),
        dasharray :=
          if jsTruthy (getK kwargs "linestyle") then
            match
              (match getK kwargs "linestyle" with
               | some (.arr ls) => ls.get? curveIdx
               | lv => lv) with
            | some (.str s) => linestyleToDasharray s
            | _ => none
          else none }

/-- Failure-propagating map: `some` of the image list when every element
maps to `some`, `none` as soon as one fails. -/
def mapMOption {α β : Type} (f : α → Option β) : List α → Option (List β)
  | [] => some []
  | a :: as =>
    match f a, mapMOption f as with
    | some b, some bs => some (b :: bs)
    | _, _ => none

/-- The per-group part of `plotEdges` (lines 384-436): normalize
`edge_kwargs || {}`, set up the optional color scale, then render the
`ids.length` edges. -/
def renderEdgeGroup (x y : ℚ → ℚ) (g : EdgeGroup) : Option (List EdgePrim) :=
  let numEdges := (g.ids.getD []).length
  let kwargs := normalizeEdgeKwargs (g.edge_kwargs.getD [])
  match edgeColorScale kwargs with
  | none => none
  | some colorScale =>
    mapMOption (renderOneEdge x y g kwargs colorScale) (List.range numEdges)

/-- The tag loop of `plotEdges` (lines 383-437), including the skip guard
`if (!edgeInfo.ids || edgeInfo.ids.length === 0) continue;`. -/
def renderTagList (x y : ℚ → ℚ) : List (String × EdgeGroup) → Option (List EdgePrim)
  | [] => some []
  | (_, g) :: rest =>
    match g.ids with
    | none => renderTagList x y rest
    | some l =>
      if l.length = 0 then renderTagList x y rest
      else
        match renderEdgeGroup x y g, renderTagList x y rest with
        | some ps, some qs => some (ps ++ qs)
        | _, _ => none

/-- The target-axis loop of `plotEdges` (lines 381-438). -/
def renderToAxes (x y : ℚ → ℚ) : List (String × List (String × EdgeGroup)) → Option (List EdgePrim)
  | [] => some []
  | (_, tags) :: rest =>
    match renderTagList x y tags, renderToAxes x y rest with
    | some ps, some qs => some (ps ++ qs)
    | _, _ => none

/-- The source-axis loop of `plotEdges` (lines 379-439). -/
def renderFromAxes (x y : ℚ → ℚ) : EdgesMap → Option (List EdgePrim)
  | [] => some []
  | (_, toAxes) :: rest =>
    match renderToAxes x y toAxes, renderFromAxes x y rest with
    | some ps, some qs => some (ps ++ qs)
    | _, _ => none

/-- `plotEdges` (lines 363-440): `if (!data.edges) return;` then the
three-level traversal, emitting the path primitives in document order. -/
def plotEdges (data : HivePlotData) (x y : ℚ → ℚ) : Option (List EdgePrim) :=
  match data.edges with
  | none => some []
  | some es => renderFromAxes x y es

/-- The `ids` length of a group, counting an absent `ids` as zero. -/
def tagIdsLen (g : EdgeGroup) : Nat :=
  (g.ids.getD []).length

/-- Total edge count of an `edges` mapping: the sum over every source
axis, target axis and tag of that tag's `ids` length. -/
def edgesTotal (es : EdgesMap) : Nat :=
  (es.map (fun ft =>
    (ft.2.map (fun tt =>
      (tt.2.map (fun tg => tagIdsLen tg.2)).sum)).sum)).sum

/-- A fill attribute value for a node: either a sequential color scale
applied to a value, or a literal value. -/
inductive FillVal where
  | scaled (interp : D3Interp) (domLo domHi : Option JsVal) (arg : Option JsVal)
  | lit (v : Option JsVal)

/-- One node circle primitive emitted by `plotNodes`.  `sVal` is the
resolved scatter-size value fed to `scatterSizeToRadius` for the `r`
attribute. -/
structure NodePrim where
  cx : ℚ
  cy : ℚ
  sVal : Option JsVal
  fill : FillVal
  fillOpacity : Option JsVal
  stroke : Option JsVal

/-- The `vmin`/`vmax` nullish fallback of the node color-scale domain:
`kwargs.vmin ?? d3.min(kwargs._fill)` (and `vmax`/`d3.max`). -/
def nodeDomVal (v : Option JsVal) (fallback : Option ℚ) : Option JsVal :=
  match v with
  | none => fallback.map JsVal.num
  | some .null => fallback.map JsVal.num
  | some w => some w

/-- The per-axis body of `plotNodes` (lines 312-360): resolve and
normalize this axis's `node_viz_kwargs`, set up the colormap when `_fill`
is a numeric array, then emit one circle per zipped `(x, y)` pair. -/
def nodesForAxis (nvk : Option (Kwargs (Kwargs JsVal))) (x y : ℚ → ℚ)
    (axisName : String) (ax : AxisSpec) : List NodePrim :=
  let kwargs : Kwargs JsVal :=
    match nvk with
    | some m =>
      match getK m axisName with
      | some kw => normalizeNodeKwargs kw
      | none => []
    | none => []
  let colorScale : Option (D3Interp × Option JsVal × Option JsVal) :=
    -- Array.isArray(_fill) && _fill.length > 0 && typeof _fill[0] === "number"
    match getK kwargs "_fill" with
    | some (.arr (JsVal.num q :: fillRest)) =>
      some (cmapToD3Interpolator (asCmapName (getK kwargs "cmap")),
            nodeDomVal (getK kwargs "vmin")
              (((JsVal.num q :: fillRest).filterMap asNum).min?),
            nodeDomVal (getK kwargs "vmax")
              (((JsVal.num q :: fillRest).filterMap asNum).max?))
    | _ => none
  let nodeData := List.zip ax.nodes.x ax.nodes.y
  nodeData.enum.map (fun jp =>
    { cx := x jp.2.1,
      cy := y jp.2.2,
      sVal := pickJs (getK kwargs "s") jp.1 (.num 20),
      fill :=
        match colorScale with
        | some (interp, lo, hi) =>
          .scaled interp lo hi (jsIndex (getK kwargs "_fill") jp.1)
        | none =>
          match getK kwargs "_fill" with
          | some (.arr fs) => .lit (fs.get? jp.1)
          | fv => .lit (some (if jsTruthy fv then fv.getD (.str "black") else .str "black")),
      fillOpacity := pickJs (getK kwargs "alpha") jp.1 (.num (4/5)),
      stroke :=
        if jsTruthy (getK kwargs "edgecolor") then
          match getK kwargs "edgecolor" with
          | some (.arr es) => es.get? jp.1
          | ev => ev
        else some (.str "none") })

/-- `plotNodes` (lines 298-361): the axis loop, emitting circles in axis
insertion order. -/
def plotNodes (data : HivePlotData) (x y : ℚ → ℚ) : List NodePrim :=
  data.axes.flatMap (fun entry => nodesForAxis data.node_viz_kwargs x y entry.1 entry.2)

/-- Options destructured by `plotLabels` (lines 462-467), with the source
defaults. -/
structure LabelOptions where
  labelsBuffer : ℚ := 11/10
  fontSize : ℚ := 14
  horizontalAngleSpan : ℚ := 60
  verticalAngleSpan : ℚ := 60

/-- One text label primitive emitted by `plotLabels`. -/
structure LabelPrim where
  lx : ℚ
  ly : ℚ
  textAnchor : String
  dominantBaseline : String
  fontSize : ℚ
  textContent : String

/-- The text-anchor conditional of `plotLabels` (lines 486-492). -/
def labelTextAnchor (horizontalAngleSpan angle : ℚ) : String :=
  if angle ≥ 360 - horizontalAngleSpan ∨ angle ≤ horizontalAngleSpan then "start"
  else if angle ≥ 180 - horizontalAngleSpan ∧ angle ≤ 180 + horizontalAngleSpan then "end"
  else "middle"

/-- The dominant-baseline conditional of `plotLabels` (lines 495-502). -/
def labelDominantBaseline (verticalAngleSpan angle : ℚ) : String :=
  if angle ≥ 90 - verticalAngleSpan ∧ angle ≤ 90 + verticalAngleSpan then "auto"
  else if angle ≥ 270 - verticalAngleSpan ∧ angle ≤ 270 + verticalAngleSpan then "hanging"
  else "middle"

/-- The per-axis body of `plotLabels` (lines 470-512): skip when `angle`
is absent, otherwise emit one text primitive at the buffered endpoint
with alignment derived from the angle.  The label text is
`long_name || axisName` (JS truthiness: an empty `long_name` falls back
to the axis key). -/
def labelForAxis (x y : ℚ → ℚ) (opts : LabelOptions)
    (entry : String × AxisSpec) : List LabelPrim :=
  let axisData := entry.2
  let longName :=
    match axisData.long_name with
    | some s => if s ≠ "" then s else entry.1
    | none => entry.1
  match axisData.angle with
  | none => []
  | some angle =>
    let labelX := axisData.start.1 + opts.labelsBuffer * (axisData.end_.1 - axisData.start.1)
    let labelY := axisData.start.2 + opts.labelsBuffer * (axisData.end_.2 - axisData.start.2)
    [{ lx := x labelX,
       ly := y labelY,
       textAnchor := labelTextAnchor opts.horizontalAngleSpan angle,
       dominantBaseline := labelDominantBaseline opts.verticalAngleSpan angle,
       fontSize := opts.fontSize,
       textContent := longName }]

/-- `plotLabels` (lines 442-513): the axis loop. -/
def plotLabels (data : HivePlotData) (x y : ℚ → ℚ) (opts : LabelOptions) : List LabelPrim :=
  data.axes.flatMap (labelForAxis x y opts)

/-- A drawable primitive on the shared draw surface, in emission order. -/
inductive Prim where
  | edge (e : EdgePrim)
  | axis (a : AxisPrim)
  | node (n : NodePrim)
  | label (l : LabelPrim)

/-- `d3.scaleLinear().range(range).domain(domain)` as an affine map. -/
def scaleLinear (domain range : ℚ × ℚ) (v : ℚ) : ℚ :=
  range.1 + (v - domain.1) * (range.2 - range.1) / (domain.2 - domain.1)

/-- The `options` of `visualizeHivePlot` (line 552), with the source
defaults. -/
structure VizOptions where
  showLabels : Bool := true
  labelsBuffer : ℚ := 11/10
  fontSize : ℚ := 14

/-- `visualizeHivePlot` (lines 520-582), in-memory-document branch: build
the linear scales of `initializeSVG` (lines 250-255), then render edges,
axes, nodes, and finally labels (only when `options.showLabels`), in that
order onto the draw surface.  The result is the ordered list of emitted
primitives; `none` is an unhandled render failure. -/
def visualizeHivePlot (hiveplotlibOutput : HivePlotData)
    (xExtent yExtent : ℚ × ℚ) (top bottom left right width height : ℚ)
    (options : VizOptions) : Option (List Prim) :=
  let xScale := scaleLinear xExtent (left, width - right)
  let yScale := scaleLinear yExtent (height - bottom, top)
  match plotEdges hiveplotlibOutput xScale yScale with
  | none => none
  | some eps =>
    let aps := plotAxes hiveplotlibOutput xScale yScale
    let nps := plotNodes hiveplotlibOutput xScale yScale
    let lps :=
      if options.showLabels then
        plotLabels hiveplotlibOutput xScale yScale
          { labelsBuffer := options.labelsBuffer, fontSize := options.fontSize }
      else []
    some (eps.map Prim.edge ++ aps.map Prim.axis ++ nps.map Prim.node ++ lps.map Prim.label)

/-- Text anchor as the specification words it: `start` when the angle is
within the span of 0° or 360°, `end` when within the span of 180°,
`middle` otherwise.  Stated with absolute distances, to be compared with
the source conditional `labelTextAnchor`. -/
def specTextAnchor (horizontalAngleSpan angle : ℚ) : String :=
  if |angle - 0| ≤ horizontalAngleSpan ∨ |angle - 360| ≤ horizontalAngleSpan then "start"
  else if |angle - 180| ≤ horizontalAngleSpan then "end"
  else "middle"

/-- An edge group of `k` parallel edges whose `edge_kwargs` carry a single
scalar `color`; used for the two-tag regression scenario. -/
def constEdgeGroup (k : Nat) (c : String) : EdgeGroup :=
  { ids := some (List.replicate k ("u", "v")),
    curves := some (List.replicate k [(0, 0), (1, 1)]),
    edge_kwargs := some [("color", JsVal.str c)] }

/-- A document with two tags between the same axis pair: `m` edges colored
`#FF0000` under `tag1` and `n` edges colored `#0000FF` under `tag2`. -/
def twoTagDoc (m n : Nat) : HivePlotData :=
  { axes := [],
    edges := some [("A", [("B", [("tag1", constEdgeGroup m "#FF0000"),
                                 ("tag2", constEdgeGroup n "#0000FF")])])],
    node_viz_kwargs := none }

/-- The edge primitive produced for each edge of `constEdgeGroup k c`:
literal stroke `c`, default opacity 0.5, default width 1.5, no dash. -/
def constEdgePrim (x y : ℚ → ℚ) (c : String) : EdgePrim :=
  { dPath := [(x 0, y 0), (x 1, y 1)],
    stroke := .lit (some (.str c)),
    strokeOpacity := some (.num (1/2)),
    strokeWidth := some (.num (3/2)),
    dasharray := none }

/-- A minimal document exercising the recovered-locally cases together:
one axis with no `angle` and no nodes, `node_viz_kwargs` absent, and an
`edges` entry holding only a style-only placeholder group without `ids`. -/
def degenerateDoc : HivePlotData :=
  { axes := [("A", { start := (0, 0), end_ := (1, 1), angle := none,
                     long_name := none, nodes := { x := [], y := [] } })],
    edges := some [("A", [("A", [("tag", { ids := none, curves := none,
                                           edge_kwargs := some [("cmap", JsVal.str "bogus")] })])])],
    node_viz_kwargs := none }

/-- Rank of a primitive in the fixed draw order of `visualizeHivePlot`:
edges, then axes, then nodes, then labels. -/
def primKind : Prim → Nat
  | .edge _ => 0
  | .axis _ => 1
  | .node _ => 2
  | .label _ => 3

/-- A one-edge group carrying `array`, `clim`, `cmap` and an explicit
`color` together, to exercise the colormap-over-color priority. -/
def arrayClimGroup : EdgeGroup :=
  { ids := some [("a", "b")],
    curves := some [[(0, 0)]],
    edge_kwargs := some
      [("array", JsVal.arr [JsVal.num 7]),
       ("clim", JsVal.arr [JsVal.num 0, JsVal.num 10]),
       ("cmap", JsVal.str "cividis"),
       ("color", JsVal.str "red")] }

/-- The primitive `plotEdges` emits for the single edge of
`arrayClimGroup` under constant-zero scales: the stroke comes from the
cividis scale over the `clim` domain applied to `array[0]`, not from the
explicit `color`. -/
def arrayClimPrim : EdgePrim :=
  { dPath := [(0, 0)],
    stroke := StrokeVal.scaled .interpolateCividis
      (some (JsVal.num 0)) (some (JsVal.num 10)) (some (JsVal.num 7)),
    strokeOpacity := some (.num (1/2)),
    strokeWidth := some (.num (3/2)),
    dasharray := none }

/-! ### Association-list lemmas -/

theorem getK_setK_self {V : Type} (k : Kwargs V) (key : String) (v : V) :
    getK (setK k key v) key = some v := by
  induction k with
  | nil => simp [setK, getK]
  | cons p rest ih =>
    by_cases h : p.1 = key
    · simp [setK, getK, h]
    · simp [setK, getK, h, ih]

theorem getK_setK_of_ne {V : Type} (k : Kwargs V) (key key' : String) (v : V)
    (h : key ≠ key') : getK (setK k key v) key' = getK k key' := by
  have h' : key' ≠ key := Ne.symm h
  induction k with
  | nil => simp [setK, getK, h]
  | cons p rest ih =>
    by_cases hp : p.1 = key
    · have hp' : p.1 ≠ key' := by rw [hp]; exact h
      simp [setK, getK, hp, hp', h, h']
    · by_cases hq : p.1 = key'
      · simp [setK, getK, hp, hq, h, h']
      · simp [setK, getK, hp, hq, ih]

theorem getK_delK_self {V : Type} (k : Kwargs V) (key : String) :
    getK (delK k key) key = none := by
  induction k with
  | nil => simp [delK, getK]
  | cons p rest ih =>
    by_cases h : p.1 = key
    · simpa [delK, List.filter, h] using ih
    · simpa [delK, List.filter, h, getK] using ih

theorem getK_delK_of_ne {V : Type} (k : Kwargs V) (key key' : String)
    (h : key ≠ key') : getK (delK k key) key' = getK k key' := by
  have h' : key' ≠ key := Ne.symm h
  induction k with
  | nil => simp [delK, getK]
  | cons p rest ih =>
    by_cases hp : p.1 = key
    · have hp' : p.1 ≠ key' := by rw [hp]; exact h
      simpa [delK, List.filter, hp, getK, hp', h, h'] using ih
    · by_cases hq : p.1 = key'
      · simp [delK, List.filter, hp, getK, hq, h, h']
      · simpa [delK, List.filter, hp, getK, hq] using ih

/-- Keys other than `src` and `canonical` are untouched by one alias
resolution step. -/
theorem getK_resolveAlias_of_ne {V : Type} (m : Kwargs V) (src canonical key : String)
    (h1 : src ≠ key) (h2 : canonical ≠ key) :
    getK (resolveAlias m src canonical) key = getK m key := by
  unfold resolveAlias
  cases hs : getK m src with
  | none => rfl
  | some v =>
    cases hc : getK m canonical with
    | some w => rfl
    | none =>
      rw [getK_delK_of_ne _ _ _ h1, getK_setK_of_ne _ _ _ _ h2]

/-- When the canonical key is present, the alias step does nothing. -/
theorem resolveAlias_of_canonical_present {V : Type} (m : Kwargs V) (src canonical : String)
    (w : V) (hc : getK m canonical = some w) :
    resolveAlias m src canonical = m := by
  unfold resolveAlias
  cases hs : getK m src with
  | none => rfl
  | some v => rw [hc]

/-- When the alias key is absent, the alias step does nothing. -/
theorem resolveAlias_of_src_absent {V : Type} (m : Kwargs V) (src canonical : String)
    (hs : getK m src = none) :
    resolveAlias m src canonical = m := by
  unfold resolveAlias
  rw [hs]

/-- When the alias fires, the canonical key receives the alias value and
the alias key is removed. -/
theorem resolveAlias_fires {V : Type} (m : Kwargs V) (src canonical : String) (v : V)
    (hsc : src ≠ canonical) (hs : getK m src = some v) (hc : getK m canonical = none) :
    getK (resolveAlias m src canonical) canonical = some v
  ∧ getK (resolveAlias m src canonical) src = none := by
  have hfire : resolveAlias m src canonical = delK (setK m canonical v) src := by
    unfold resolveAlias
    rw [hs, hc]
  rw [hfire]
  constructor
  · rw [getK_delK_of_ne _ _ _ hsc, getK_setK_self]
  · rw [getK_delK_self]

/-- After an alias step, the alias key is absent or the canonical key is
present. -/
theorem resolveAlias_resolved {V : Type} (m : Kwargs V) (src canonical : String) :
    getK (resolveAlias m src canonical) src = none
  ∨ (getK (resolveAlias m src canonical) canonical).isSome = true := by
  unfold resolveAlias
  cases hs : getK m src with
  | none => exact Or.inl hs
  | some v =>
    cases hc : getK m canonical with
    | some w => exact Or.inr (by rw [hc]; rfl)
    | none =>
      left
      rw [getK_delK_self]

/-- An alias step is a no-op when the alias key is absent or the canonical
key is present. -/
theorem resolveAlias_noop {V : Type} (m : Kwargs V) (src canonical : String)
    (h : getK m src = none ∨ (getK m canonical).isSome = true) :
    resolveAlias m src canonical = m := by
  rcases h with h | h
  · exact resolveAlias_of_src_absent m src canonical h
  · cases hc : getK m canonical with
    | none => rw [hc] at h; simp at h
    | some w => exact resolveAlias_of_canonical_present m src canonical w hc

/-! ### Claim C6: normalizeEdgeKwargs is idempotent and pure -/

/-- C6: for every raw dictionary `x`,
`normalizeEdgeKwargs(normalizeEdgeKwargs(x))` equals
`normalizeEdgeKwargs(x)`, and the call never mutates its argument: every
mutation in the body targets the spread copy, so the argument object
observed after the call is `x` itself. -/
theorem normalizeEdgeKwargs_idempotent {V : Type} (x : Kwargs V) :
    normalizeEdgeKwargs (normalizeEdgeKwargs x) = normalizeEdgeKwargs x
  ∧ (normalizeEdgeKwargsCall x).1 = x := by
  constructor
  · unfold normalizeEdgeKwargs
    have hlw : getK (resolveAlias (resolveAlias x "lw" "linewidth") "ls" "linestyle") "lw"
        = getK (resolveAlias x "lw" "linewidth") "lw" :=
      getK_resolveAlias_of_ne _ "ls" "linestyle" "lw" (by decide) (by decide)
    have hlwd : getK (resolveAlias (resolveAlias x "lw" "linewidth") "ls" "linestyle") "linewidth"
        = getK (resolveAlias x "lw" "linewidth") "linewidth" :=
      getK_resolveAlias_of_ne _ "ls" "linestyle" "linewidth" (by decide) (by decide)
    have h1 : getK (resolveAlias (resolveAlias x "lw" "linewidth") "ls" "linestyle") "lw" = none
        ∨ (getK (resolveAlias (resolveAlias x "lw" "linewidth") "ls" "linestyle") "linewidth").isSome = true := by
      rcases resolveAlias_resolved x "lw" "linewidth" with h | h
      · exact Or.inl (by rw [hlw]; exact h)
      · exact Or.inr (by rw [hlwd]; exact h)
    rw [resolveAlias_noop _ _ _ h1]
    exact resolveAlias_noop _ _ _ (resolveAlias_resolved _ "ls" "linestyle")
  · rfl

/-! ### Claim C5: edge alias resolution -/

/-- C5 counterexample: with both `lw` and `linewidth` present, the guard
`"lw" in normalized && !("linewidth" in normalized)` fails, so `lw` is
NOT removed: the claim that the alias key is always absent from the
result is false at `{lw: 3, linewidth: 5}`. -/
theorem normalizeEdgeKwargs_alias_removal_cex :
    getK (normalizeEdgeKwargs [("lw", JsVal.num 3), ("linewidth", JsVal.num 5)]) "lw"
      = some (JsVal.num 3)
  ∧ getK (normalizeEdgeKwargs [("lw", JsVal.num 3), ("linewidth", JsVal.num 5)]) "linewidth"
      = some (JsVal.num 5) :=
  ⟨rfl, rfl⟩

/-- C5 amended: `lw` maps to `linewidth` only if `linewidth` is absent,
and only in that case is `lw` removed; when `linewidth` is present it
wins and `lw` passes through unchanged.  Likewise for `ls`/`linestyle`. -/
theorem normalizeEdgeKwargs_alias_resolution {V : Type} (k : Kwargs V) :
    (∀ v, getK k "linewidth" = none → getK k "lw" = some v →
       getK (normalizeEdgeKwargs k) "linewidth" = some v
     ∧ getK (normalizeEdgeKwargs k) "lw" = none)
  ∧ (∀ w, getK k "linewidth" = some w →
       getK (normalizeEdgeKwargs k) "linewidth" = some w
     ∧ getK (normalizeEdgeKwargs k) "lw" = getK k "lw")
  ∧ (∀ v, getK k "linestyle" = none → getK k "ls" = some v →
       getK (normalizeEdgeKwargs k) "linestyle" = some v
     ∧ getK (normalizeEdgeKwargs k) "ls" = none)
  ∧ (∀ w, getK k "linestyle" = some w →
       getK (normalizeEdgeKwargs k) "linestyle" = some w
     ∧ getK (normalizeEdgeKwargs k) "ls" = getK k "ls") := by
  unfold normalizeEdgeKwargs
  refine ⟨?_, ?_, ?_, ?_⟩
  · intro v hlwd hlw
    have hf := resolveAlias_fires k "lw" "linewidth" v (by decide) hlw hlwd
    constructor
    · rw [getK_resolveAlias_of_ne _ "ls" "linestyle" "linewidth" (by decide) (by decide)]
      exact hf.1
    · rw [getK_resolveAlias_of_ne _ "ls" "linestyle" "lw" (by decide) (by decide)]
      exact hf.2
  · intro w hlwd
    have hnoop : resolveAlias k "lw" "linewidth" = k :=
      resolveAlias_of_canonical_present k "lw" "linewidth" w hlwd
    rw [hnoop]
    constructor
    · rw [getK_resolveAlias_of_ne _ "ls" "linestyle" "linewidth" (by decide) (by decide)]
      exact hlwd
    · exact getK_resolveAlias_of_ne _ "ls" "linestyle" "lw" (by decide) (by decide)
  · intro v hlst hls
    have hls1 : getK (resolveAlias k "lw" "linewidth") "ls" = some v := by
      rw [getK_resolveAlias_of_ne _ "lw" "linewidth" "ls" (by decide) (by decide)]
      exact hls
    have hlst1 : getK (resolveAlias k "lw" "linewidth") "linestyle" = none := by
      rw [getK_resolveAlias_of_ne _ "lw" "linewidth" "linestyle" (by decide) (by decide)]
      exact hlst
    exact resolveAlias_fires _ "ls" "linestyle" v (by decide) hls1 hlst1
  · intro w hlst
    have hlst1 : getK (resolveAlias k "lw" "linewidth") "linestyle" = some w := by
      rw [getK_resolveAlias_of_ne _ "lw" "linewidth" "linestyle" (by decide) (by decide)]
      exact hlst
    have hnoop : resolveAlias (resolveAlias k "lw" "linewidth") "ls" "linestyle"
        = resolveAlias k "lw" "linewidth" :=
      resolveAlias_of_canonical_present _ "ls" "linestyle" w hlst1
    rw [hnoop]
    constructor
    · exact hlst1
    · exact getK_resolveAlias_of_ne _ "lw" "linewidth" "ls" (by decide) (by decide)

/-- C5 amended, witness at `{lw: 3}`: the alias fires, `linewidth`
receives 3 and `lw` is removed. -/
theorem normalizeEdgeKwargs_alias_resolution_witness :
    getK (normalizeEdgeKwargs [("lw", JsVal.num 3)]) "linewidth" = some (JsVal.num 3)
  ∧ getK (normalizeEdgeKwargs [("lw", JsVal.num 3)]) "lw" = none :=
  (normalizeEdgeKwargs_alias_resolution [("lw", JsVal.num 3)]).1 (JsVal.num 3) rfl rfl

/-! ### Claim C1: node fill-color priority -/

/-- The `size`/`s` and `edgecolors`/`edgecolor` alias steps of
`normalizeNodeKwargs` leave every other key unchanged. -/
theorem getK_nodeSizeEdgecolorSteps {V : Type} (m : Kwargs V) (key : String)
    (h1 : "size" ≠ key) (h2 : "s" ≠ key) (h3 : "edgecolors" ≠ key) (h4 : "edgecolor" ≠ key) :
    getK (resolveAlias (resolveAlias m "size" "s") "edgecolors" "edgecolor") key = getK m key := by
  rw [getK_resolveAlias_of_ne _ "edgecolors" "edgecolor" key h3 h4,
      getK_resolveAlias_of_ne _ "size" "s" key h1 h2]

/-- C1 counterexample: at `{facecolor: "green", color: "blue"}` the winner
`facecolor` is renamed to `_fill`, but the lower-priority `color` key is
NOT deleted (the `else if` chain never reaches it), so the claim that
`c`/`color`/`facecolor` are always absent from the result is false. -/
theorem normalizeNodeKwargs_absence_cex :
    getK (normalizeNodeKwargs [("facecolor", JsVal.str "green"), ("color", JsVal.str "blue")]) "_fill"
      = some (JsVal.str "green")
  ∧ getK (normalizeNodeKwargs [("facecolor", JsVal.str "green"), ("color", JsVal.str "blue")]) "facecolor"
      = none
  ∧ getK (normalizeNodeKwargs [("facecolor", JsVal.str "green"), ("color", JsVal.str "blue")]) "color"
      = some (JsVal.str "blue") :=
  ⟨rfl, rfl, rfl⟩

/-- C1 amended: the highest-priority present key among `facecolor`,
`color`, `c` (in that order) is renamed to `_fill` and that key alone is
removed; the lower-priority keys of the three, if present, remain in the
result unchanged. -/
theorem normalizeNodeKwargs_fill_priority {V : Type} (k : Kwargs V) :
    (∀ v, getK k "facecolor" = some v →
       getK (normalizeNodeKwargs k) "_fill" = some v
     ∧ getK (normalizeNodeKwargs k) "facecolor" = none
     ∧ getK (normalizeNodeKwargs k) "color" = getK k "color"
     ∧ getK (normalizeNodeKwargs k) "c" = getK k "c")
  ∧ (∀ v, getK k "facecolor" = none → getK k "color" = some v →
       getK (normalizeNodeKwargs k) "_fill" = some v
     ∧ getK (normalizeNodeKwargs k) "color" = none
     ∧ getK (normalizeNodeKwargs k) "c" = getK k "c")
  ∧ (∀ v, getK k "facecolor" = none → getK k "color" = none → getK k "c" = some v →
       getK (normalizeNodeKwargs k) "_fill" = some v
     ∧ getK (normalizeNodeKwargs k) "c" = none)
  ∧ (getK k "facecolor" = none → getK k "color" = none → getK k "c" = none →
       getK (normalizeNodeKwargs k) "_fill" = getK k "_fill") := by
  refine ⟨?_, ?_, ?_, ?_⟩
  · intro v hf
    have hfill : resolveNodeFill k = delK (setK k "_fill" v) "facecolor" := by
      unfold resolveNodeFill
      rw [hf]
    refine ⟨?_, ?_, ?_, ?_⟩
    · rw [show normalizeNodeKwargs k
            = resolveAlias (resolveAlias (resolveNodeFill k) "size" "s") "edgecolors" "edgecolor" from rfl,
          getK_nodeSizeEdgecolorSteps _ "_fill" (by decide) (by decide) (by decide) (by decide),
          hfill, getK_delK_of_ne _ _ _ (by decide), getK_setK_self]
    · rw [show normalizeNodeKwargs k
            = resolveAlias (resolveAlias (resolveNodeFill k) "size" "s") "edgecolors" "edgecolor" from rfl,
          getK_nodeSizeEdgecolorSteps _ "facecolor" (by decide) (by decide) (by decide) (by decide),
          hfill, getK_delK_self]
    · rw [show normalizeNodeKwargs k
            = resolveAlias (resolveAlias (resolveNodeFill k) "size" "s") "edgecolors" "edgecolor" from rfl,
          getK_nodeSizeEdgecolorSteps _ "color" (by decide) (by decide) (by decide) (by decide),
          hfill, getK_delK_of_ne _ _ _ (by decide), getK_setK_of_ne _ _ _ _ (by decide)]
    · rw [show normalizeNodeKwargs k
            = resolveAlias (resolveAlias (resolveNodeFill k) "size" "s") "edgecolors" "edgecolor" from rfl,
          getK_nodeSizeEdgecolorSteps _ "c" (by decide) (by decide) (by decide) (by decide),
          hfill, getK_delK_of_ne _ _ _ (by decide), getK_setK_of_ne _ _ _ _ (by decide)]
  · intro v hf hc
    have hfill : resolveNodeFill k = delK (setK k "_fill" v) "color" := by
      unfold resolveNodeFill
      rw [hf, hc]
    refine ⟨?_, ?_, ?_⟩
    · rw [show normalizeNodeKwargs k
            = resolveAlias (resolveAlias (resolveNodeFill k) "size" "s") "edgecolors" "edgecolor" from rfl,
          getK_nodeSizeEdgecolorSteps _ "_fill" (by decide) (by decide) (by decide) (by decide),
          hfill, getK_delK_of_ne _ _ _ (by decide), getK_setK_self]
    · rw [show normalizeNodeKwargs k
            = resolveAlias (resolveAlias (resolveNodeFill k) "size" "s") "edgecolors" "edgecolor" from rfl,
          getK_nodeSizeEdgecolorSteps _ "color" (by decide) (by decide) (by decide) (by decide),
          hfill, getK_delK_self]
    · rw [show normalizeNodeKwargs k
            = resolveAlias (resolveAlias (resolveNodeFill k) "size" "s") "edgecolors" "edgecolor" from rfl,
          getK_nodeSizeEdgecolorSteps _ "c" (by decide) (by decide) (by decide) (by decide),
          hfill, getK_delK_of_ne _ _ _ (by decide), getK_setK_of_ne _ _ _ _ (by decide)]
  · intro v hf hc hcc
    have hfill : resolveNodeFill k = delK (setK k "_fill" v) "c" := by
      unfold resolveNodeFill
      rw [hf, hc, hcc]
    refine ⟨?_, ?_⟩
    · rw [show normalizeNodeKwargs k
            = resolveAlias (resolveAlias (resolveNodeFill k) "size" "s") "edgecolors" "edgecolor" from rfl,
          getK_nodeSizeEdgecolorSteps _ "_fill" (by decide) (by decide) (by decide) (by decide),
          hfill, getK_delK_of_ne _ _ _ (by decide), getK_setK_self]
    · rw [show normalizeNodeKwargs k
            = resolveAlias (resolveAlias (resolveNodeFill k) "size" "s") "edgecolors" "edgecolor" from rfl,
          getK_nodeSizeEdgecolorSteps _ "c" (by decide) (by decide) (by decide) (by decide),
          hfill, getK_delK_self]
  · intro hf hc hcc
    have hfill : resolveNodeFill k = k := by
      unfold resolveNodeFill
      rw [hf, hc, hcc]
    rw [show normalizeNodeKwargs k
          = resolveAlias (resolveAlias (resolveNodeFill k) "size" "s") "edgecolors" "edgecolor" from rfl,
        getK_nodeSizeEdgecolorSteps _ "_fill" (by decide) (by decide) (by decide) (by decide),
        hfill]

/-- C1 amended, witness at `{c: "red", color: "blue", facecolor: "green"}`:
`_fill` becomes `"green"`, `facecolor` is removed, `color` and `c`
survive. -/
theorem normalizeNodeKwargs_fill_priority_witness :
    getK (normalizeNodeKwargs
        [("c", JsVal.str "red"), ("color", JsVal.str "blue"), ("facecolor", JsVal.str "green")]) "_fill"
      = some (JsVal.str "green")
  ∧ getK (normalizeNodeKwargs
        [("c", JsVal.str "red"), ("color", JsVal.str "blue"), ("facecolor", JsVal.str "green")]) "facecolor"
      = none
  ∧ getK (normalizeNodeKwargs
        [("c", JsVal.str "red"), ("color", JsVal.str "blue"), ("facecolor", JsVal.str "green")]) "color"
      = getK [("c", JsVal.str "red"), ("color", JsVal.str "blue"), ("facecolor", JsVal.str "green")] "color"
  ∧ getK (normalizeNodeKwargs
        [("c", JsVal.str "red"), ("color", JsVal.str "blue"), ("facecolor", JsVal.str "green")]) "c"
      = getK [("c", JsVal.str "red"), ("color", JsVal.str "blue"), ("facecolor", JsVal.str "green")] "c" :=
  (normalizeNodeKwargs_fill_priority
    [("c", JsVal.str "red"), ("color", JsVal.str "blue"), ("facecolor", JsVal.str "green")]).1
    (JsVal.str "green") rfl

/-! ### Claim C4: colormap lookup -/

/-- C4 counterexample: `"coolwarm"` and `"RdBu"` are two different
recognized colormap names, yet the table binds both to the same d3
function `d3.interpolateRdBu`, so "any two different recognized names
return different functions" is false. -/
theorem cmapToD3Interpolator_distinct_cex :
    cmapToD3Interpolator (some "coolwarm") = cmapToD3Interpolator (some "RdBu")
  ∧ "coolwarm" ≠ "RdBu"
  ∧ "coolwarm" ∈ recognizedCmapNames
  ∧ "RdBu" ∈ recognizedCmapNames := by
  refine ⟨rfl, by decide, by decide, by decide⟩

/-- C4 amended: unknown names, `undefined`, and `"viridis"` itself all
yield the viridis interpolator (the identical function), and any two
different recognized names yield different functions, with the single
exception of the pair `"coolwarm"`/`"RdBu"`, which share
`d3.interpolateRdBu`. -/
theorem cmapToD3Interpolator_fallback_distinct :
    cmapToD3Interpolator none = D3Interp.interpolateViridis
  ∧ cmapToD3Interpolator (some "not_a_cmap") = D3Interp.interpolateViridis
  ∧ cmapToD3Interpolator (some "viridis") = D3Interp.interpolateViridis
  ∧ (∀ a ∈ recognizedCmapNames, ∀ b ∈ recognizedCmapNames, a ≠ b →
      (cmapToD3Interpolator (some a) = cmapToD3Interpolator (some b) ↔
        ((a = "coolwarm" ∧ b = "RdBu") ∨ (a = "RdBu" ∧ b = "coolwarm")))) := by
  refine ⟨rfl, rfl, rfl, by decide⟩

/-- C4 amended, witness at the pair `("viridis", "plasma")`: both
recognized, different, and their interpolators differ. -/
theorem cmapToD3Interpolator_fallback_distinct_witness :
    cmapToD3Interpolator (some "viridis") = cmapToD3Interpolator (some "plasma") ↔
      (("viridis" = "coolwarm" ∧ "plasma" = "RdBu")
        ∨ ("viridis" = "RdBu" ∧ "plasma" = "coolwarm")) :=
  cmapToD3Interpolator_fallback_distinct.2.2.2 "viridis" (by decide) "plasma" (by decide)
    (by decide)

/-! ### Claim C9: scatter size to radius -/

/-- C9: `scatterSizeToRadius(s)` equals `sqrt(s / π)`; size 0 gives
radius exactly 0; size 20 gives `sqrt(20/π)` to 5 decimal places
(2.52313...); and the function is strictly increasing on nonnegative
sizes. -/
theorem scatterSizeToRadius_spec :
    (∀ s : ℝ, scatterSizeToRadius s = Real.sqrt (s / Real.pi))
  ∧ scatterSizeToRadius 0 = 0
  ∧ |scatterSizeToRadius 20 - 2.52313| < 1 / 100000
  ∧ (∀ a b : ℝ, 0 ≤ a → a < b → scatterSizeToRadius a < scatterSizeToRadius b) := by
  have hπ : (0 : ℝ) < Real.pi := Real.pi_pos
  refine ⟨fun s => rfl, by simp [scatterSizeToRadius], ?_, ?_⟩
  · have hgt := Real.pi_gt_d6
    have hlt := Real.pi_lt_d6
    have hup : scatterSizeToRadius 20 < 2.52314 := by
      rw [show scatterSizeToRadius 20 = Real.sqrt (20 / Real.pi) from rfl,
          Real.sqrt_lt' (by norm_num), div_lt_iff₀ hπ]
      nlinarith
    have hlo : (2.52313 : ℝ) < scatterSizeToRadius 20 := by
      rw [show scatterSizeToRadius 20 = Real.sqrt (20 / Real.pi) from rfl,
          Real.lt_sqrt (by norm_num), lt_div_iff₀ hπ]
      nlinarith
    rw [abs_lt]
    constructor
    · nlinarith
    · nlinarith
  · intro a b ha hab
    have hd : a / Real.pi < b / Real.pi := (div_lt_div_iff_of_pos_right hπ).mpr hab
    exact Real.sqrt_lt_sqrt (div_nonneg ha hπ.le) hd

/-- C9 witness: the strict-monotonicity conjunct applied at sizes 0 < 20,
together with the hypotheses discharged. -/
theorem scatterSizeToRadius_spec_witness :
    (0 : ℝ) ≤ 0 ∧ (0 : ℝ) < 20
  ∧ scatterSizeToRadius 0 < scatterSizeToRadius 20 :=
  ⟨le_refl 0, by norm_num,
    scatterSizeToRadius_spec.2.2.2 0 20 (le_refl 0) (by norm_num)⟩

/-! ### Claim C7: label anchors -/

/-- For angles in the documented domain [0, 360), the source conditional
`labelTextAnchor` computes exactly the specification's distance-based
partition `specTextAnchor`. -/
theorem specTextAnchor_eq_labelTextAnchor (span a : ℚ) (h0 : 0 ≤ a) (h1 : a < 360) :
    specTextAnchor span a = labelTextAnchor span a := by
  unfold specTextAnchor labelTextAnchor
  have e1 : (|a - 0| ≤ span ∨ |a - 360| ≤ span) ↔ (a ≥ 360 - span ∨ a ≤ span) := by
    rw [abs_le, abs_le]
    constructor
    · rintro (⟨hl, hr⟩ | ⟨hl, hr⟩)
      · right; linarith
      · left; linarith
    · rintro (h | h)
      · right; constructor <;> linarith
      · left; constructor <;> linarith
  have e2 : (|a - 180| ≤ span) ↔ (a ≥ 180 - span ∧ a ≤ 180 + span) := by
    rw [abs_le]
    constructor
    · rintro ⟨hl, hr⟩; constructor <;> linarith
    · rintro ⟨hl, hr⟩; constructor <;> linarith
  exact if_congr e1 rfl (if_congr e2 rfl rfl)

/-- C7: for every axis carrying an `angle`, `plotLabels` emits exactly one
label whose text-anchor is `start` within `horizontalAngleSpan` of 0°/360°,
`end` within the span of 180°, and `middle` otherwise; an axis without an
`angle` emits no label.  Concretely with the default span 60: angle 0 →
`start`, 120 → `end`, 90 → `middle`. -/
theorem plotLabels_anchor_partition (x y : ℚ → ℚ) (opts : LabelOptions)
    (name : String) (ax : AxisSpec) :
    (∀ data : HivePlotData, plotLabels data x y opts = data.axes.flatMap (labelForAxis x y opts))
  ∧ (ax.angle = none → labelForAxis x y opts (name, ax) = [])
  ∧ (∀ a, ax.angle = some a → 0 ≤ a → a < 360 →
       (labelForAxis x y opts (name, ax)).length = 1
     ∧ ∀ l ∈ labelForAxis x y opts (name, ax),
         l.textAnchor = specTextAnchor opts.horizontalAngleSpan a)
  ∧ labelTextAnchor 60 0 = "start"
  ∧ labelTextAnchor 60 120 = "end"
  ∧ labelTextAnchor 60 90 = "middle" := by
  refine ⟨fun data => rfl, ?_, ?_, by norm_num [labelTextAnchor],
    by norm_num [labelTextAnchor], by norm_num [labelTextAnchor]⟩
  · intro h
    simp [labelForAxis, h]
  · intro a ha h0 h1
    constructor
    · simp [labelForAxis, ha]
    · intro l hl
      simp only [labelForAxis, ha] at hl
      simp only [List.mem_singleton] at hl
      subst hl
      exact (specTextAnchor_eq_labelTextAnchor opts.horizontalAngleSpan a h0 h1).symm

/-- C7 witness: the axis `("A", angle 0)` under constant-zero scales and
default options yields exactly one label, whose anchor at angle 0 is the
specification's `start` partition value. -/
theorem plotLabels_anchor_partition_witness :
    (0 : ℚ) ≤ 0 ∧ (0 : ℚ) < 360
  ∧ (labelForAxis (fun _ => 0) (fun _ => 0) {}
      ("A", { start := (0, 0), end_ := (1, 1), angle := some 0,
              long_name := none, nodes := { x := [], y := [] } })).length = 1
  ∧ ({ lx := 0, ly := 0, textAnchor := labelTextAnchor 60 0,
       dominantBaseline := labelDominantBaseline 60 0, fontSize := 14,
       textContent := "A" } : LabelPrim).textAnchor = specTextAnchor 60 0 := by
  have h := (plotLabels_anchor_partition (fun _ => 0) (fun _ => 0) {} "A"
    { start := (0, 0), end_ := (1, 1), angle := some 0,
      long_name := none, nodes := { x := [], y := [] } }).2.2.1 0 rfl (le_refl 0) (by norm_num)
  exact ⟨le_refl 0, by norm_num, h.1, h.2 _ (List.Mem.head _)⟩

/-! ### mapMOption lemmas -/

theorem mapMOption_length {α β : Type} (f : α → Option β) (as : List α) (bs : List β)
    (h : mapMOption f as = some bs) : bs.length = as.length := by
  induction as generalizing bs with
  | nil =>
    simp only [mapMOption] at h
    cases h
    rfl
  | cons a rest ih =>
    simp only [mapMOption] at h
    cases hfa : f a with
    | none => rw [hfa] at h; cases h
    | some b =>
      cases hrec : mapMOption f rest with
      | none => rw [hfa, hrec] at h; cases h
      | some brest =>
        rw [hfa, hrec] at h
        cases h
        simp [ih brest hrec]

theorem mapMOption_append {α β : Type} (f : α → Option β) (as as' : List α) :
    mapMOption f (as ++ as') =
      match mapMOption f as, mapMOption f as' with
      | some bs, some bs' => some (bs ++ bs')
      | _, _ => none := by
  induction as with
  | nil =>
    simp only [List.nil_append, mapMOption]
    cases mapMOption f as' <;> rfl
  | cons a rest ih =>
    have hstep : mapMOption f ((a :: rest) ++ as')
        = match f a, mapMOption f (rest ++ as') with
          | some b, some bs => some (b :: bs)
          | _, _ => none := rfl
    have hstep' : mapMOption f (a :: rest)
        = match f a, mapMOption f rest with
          | some b, some bs => some (b :: bs)
          | _, _ => none := rfl
    rw [hstep, hstep', ih]
    cases f a <;> cases mapMOption f rest <;> cases mapMOption f as' <;> rfl

theorem mapMOption_get {α β : Type} (f : α → Option β) (as : List α) (bs : List β)
    (h : mapMOption f as = some bs) (i : Nat) (b : β) (hg : bs.get? i = some b) :
    ∃ a, as.get? i = some a ∧ f a = some b := by
  induction as generalizing bs i with
  | nil =>
    simp only [mapMOption] at h
    cases h
    simp at hg
  | cons a rest ih =>
    simp only [mapMOption] at h
    cases hfa : f a with
    | none => rw [hfa] at h; cases h
    | some b0 =>
      cases hrec : mapMOption f rest with
      | none => rw [hfa, hrec] at h; cases h
      | some brest =>
        rw [hfa, hrec] at h
        cases h
        cases i with
        | zero =>
          simp only [List.get?] at hg
          cases hg
          exact ⟨a, rfl, hfa⟩
        | succ j =>
          simp only [List.get?] at hg
          obtain ⟨a', ha', hfa'⟩ := ih brest hrec j hg
          exact ⟨a', ha', hfa'⟩

theorem mapMOption_mem {α β : Type} (f : α → Option β) (as : List α) (bs : List β)
    (h : mapMOption f as = some bs) (b : β) (hb : b ∈ bs) :
    ∃ a ∈ as, f a = some b := by
  induction as generalizing bs with
  | nil =>
    simp only [mapMOption] at h
    cases h
    simp at hb
  | cons a rest ih =>
    simp only [mapMOption] at h
    cases hfa : f a with
    | none => rw [hfa] at h; cases h
    | some b0 =>
      cases hrec : mapMOption f rest with
      | none => rw [hfa, hrec] at h; cases h
      | some brest =>
        rw [hfa, hrec] at h
        cases h
        rcases List.mem_cons.mp hb with hb | hb
        · exact ⟨a, List.mem_cons_self a rest, by rw [hfa, hb]⟩
        · obtain ⟨a', ha', hfa'⟩ := ih brest hrec hb
          exact ⟨a', List.mem_cons_of_mem a ha', hfa'⟩

theorem mapMOption_isSome {α β : Type} (f : α → Option β) (as : List α)
    (h : ∀ a ∈ as, (f a).isSome = true) : ∃ bs, mapMOption f as = some bs := by
  induction as with
  | nil => exact ⟨[], rfl⟩
  | cons a rest ih =>
    obtain ⟨brest, hrest⟩ := ih (fun a' ha' => h a' (List.mem_cons_of_mem a ha'))
    have ha := h a (List.mem_cons_self a rest)
    cases hfa : f a with
    | none => rw [hfa] at ha; cases ha
    | some b => exact ⟨b :: brest, by simp only [mapMOption, hfa, hrest]⟩

theorem mapMOption_range_const {β : Type} (f : Nat → Option β) (p : β) (k : Nat)
    (h : ∀ i < k, f i = some p) : mapMOption f (List.range k) = some (List.replicate k p) := by
  induction k with
  | zero => rfl
  | succ j ih =>
    rw [List.range_succ, mapMOption_append,
        ih (fun i hi => h i (Nat.lt_succ_of_lt hi)),
        List.replicate_succ']
    simp only [mapMOption, h j (Nat.lt_succ_self j)]

/-! ### Edge-render length lemmas -/

theorem renderEdgeGroup_length (x y : ℚ → ℚ) (g : EdgeGroup) (ps : List EdgePrim)
    (h : renderEdgeGroup x y g = some ps) : ps.length = tagIdsLen g := by
  simp only [renderEdgeGroup] at h
  cases hcs : edgeColorScale (normalizeEdgeKwargs (g.edge_kwargs.getD [])) with
  | none => rw [hcs] at h; cases h
  | some colorScale =>
    rw [hcs] at h
    rw [mapMOption_length _ _ _ h, List.length_range]
    rfl

theorem renderTagList_length (x y : ℚ → ℚ) (ts : List (String × EdgeGroup))
    (ps : List EdgePrim) (h : renderTagList x y ts = some ps) :
    ps.length = (ts.map (fun tg => tagIdsLen tg.2)).sum := by
  induction ts generalizing ps with
  | nil =>
    simp only [renderTagList] at h
    cases h
    rfl
  | cons t rest ih =>
    obtain ⟨name, g⟩ := t
    cases hids : g.ids with
    | none =>
      simp only [renderTagList, hids] at h
      have := ih ps h
      simp [this, tagIdsLen, hids]
    | some l =>
      by_cases hl : l.length = 0
      · simp only [renderTagList, hids, if_pos hl] at h
        have := ih ps h
        simp [this, tagIdsLen, hids, hl]
      · simp only [renderTagList, hids, if_neg hl] at h
        cases hg : renderEdgeGroup x y g with
        | none => rw [hg] at h; cases h
        | some gps =>
          cases hrest : renderTagList x y rest with
          | none => rw [hg, hrest] at h; cases h
          | some rps =>
            rw [hg, hrest] at h
            cases h
            have h1 := renderEdgeGroup_length x y g gps hg
            have h2 := ih rps hrest
            simp [h1, h2, tagIdsLen, hids]

theorem renderToAxes_length (x y : ℚ → ℚ) (ts : List (String × List (String × EdgeGroup)))
    (ps : List EdgePrim) (h : renderToAxes x y ts = some ps) :
    ps.length = (ts.map (fun tt => (tt.2.map (fun tg => tagIdsLen tg.2)).sum)).sum := by
  induction ts generalizing ps with
  | nil =>
    simp only [renderToAxes] at h
    cases h
    rfl
  | cons t rest ih =>
    obtain ⟨name, tags⟩ := t
    simp only [renderToAxes] at h
    cases hg : renderTagList x y tags with
    | none => rw [hg] at h; cases h
    | some gps =>
      cases hrest : renderToAxes x y rest with
      | none => rw [hg, hrest] at h; cases h
      | some rps =>
        rw [hg, hrest] at h
        cases h
        have h1 := renderTagList_length x y tags gps hg
        have h2 := ih rps hrest
        simp [h1, h2]

theorem renderFromAxes_length (x y : ℚ → ℚ) (es : EdgesMap)
    (ps : List EdgePrim) (h : renderFromAxes x y es = some ps) :
    ps.length = edgesTotal es := by
  induction es generalizing ps with
  | nil =>
    simp only [renderFromAxes] at h
    cases h
    rfl
  | cons t rest ih =>
    obtain ⟨name, toAxes⟩ := t
    simp only [renderFromAxes] at h
    cases hg : renderToAxes x y toAxes with
    | none => rw [hg] at h; cases h
    | some gps =>
      cases hrest : renderFromAxes x y rest with
      | none => rw [hg, hrest] at h; cases h
      | some rps =>
        rw [hg, hrest] at h
        cases h
        have h1 := renderToAxes_length x y toAxes gps hg
        have h2 := ih rps hrest
        simp [edgesTotal, h1, h2]

/-! ### Claim C2: every tag is rendered -/

theorem renderOneEdge_const (x y : ℚ → ℚ) (k : Nat) (c : String) (i : Nat)
    (hc : c ≠ "") (hi : i < k) :
    renderOneEdge x y (constEdgeGroup k c) [("color", JsVal.str c)] none i
      = some (constEdgePrim x y c) := by
  have hcurve : ((constEdgeGroup k c).curves.getD []).get? i
      = some [((0 : ℚ), (0 : ℚ)), ((1 : ℚ), (1 : ℚ))] := by
    simp [constEdgeGroup, List.get?_eq_getElem?, List.getElem?_replicate, hi]
  have hbne : (c != "") = true := bne_iff_ne.mpr hc
  simp only [renderOneEdge, hcurve]
  simp [constEdgePrim, getK, jsTruthy, pickJs, hbne]

theorem renderEdgeGroup_const (x y : ℚ → ℚ) (k : Nat) (c : String) (hc : c ≠ "") :
    renderEdgeGroup x y (constEdgeGroup k c)
      = some (List.replicate k (constEdgePrim x y c)) := by
  have hkw : normalizeEdgeKwargs ((constEdgeGroup k c).edge_kwargs.getD [])
      = [("color", JsVal.str c)] := rfl
  have hcs : edgeColorScale [("color", JsVal.str c)] = some none := rfl
  have hlen : ((constEdgeGroup k c).ids.getD []).length = k := by
    simp [constEdgeGroup]
  simp only [renderEdgeGroup, hkw, hcs, hlen]
  exact mapMOption_range_const _ _ k (fun i hi => renderOneEdge_const x y k c i hc hi)

theorem plotEdges_twoTagDoc (x y : ℚ → ℚ) (m n : Nat) (hm : 0 < m) (hn : 0 < n) :
    plotEdges (twoTagDoc m n) x y
      = some (List.replicate m (constEdgePrim x y "#FF0000")
              ++ List.replicate n (constEdgePrim x y "#0000FF")) := by
  have h1 := renderEdgeGroup_const x y m "#FF0000" (by decide)
  have h2 := renderEdgeGroup_const x y n "#0000FF" (by decide)
  have hg1ids : (constEdgeGroup m "#FF0000").ids = some (List.replicate m ("u", "v")) := rfl
  have hg2ids : (constEdgeGroup n "#0000FF").ids = some (List.replicate n ("u", "v")) := rfl
  have ht : renderTagList x y
      [("tag1", constEdgeGroup m "#FF0000"), ("tag2", constEdgeGroup n "#0000FF")]
      = some (List.replicate m (constEdgePrim x y "#FF0000")
              ++ List.replicate n (constEdgePrim x y "#0000FF")) := by
    simp only [renderTagList, hg1ids, hg2ids, List.length_replicate,
               if_neg hm.ne', if_neg hn.ne', h1, h2, List.append_nil]
  simp only [plotEdges, twoTagDoc, renderFromAxes, renderToAxes, ht, List.append_nil]

/-- C2: `plotEdges` renders every tag's edge group under every axis pair:
whenever it completes, the number of emitted path primitives is the sum
over all source axes, target axes and tags of that tag's `ids` length; and
in the two-tag scenario (`m` red edges and `n` blue edges between the same
axis pair) exactly `m + n` primitives are emitted and both tags' stroke
colors appear. -/
theorem plotEdges_all_tags_rendered :
    (∀ (data : HivePlotData) (x y : ℚ → ℚ) (es : EdgesMap) (prims : List EdgePrim),
        data.edges = some es → plotEdges data x y = some prims →
        prims.length = edgesTotal es)
  ∧ (∀ (x y : ℚ → ℚ) (m n : Nat), 0 < m → 0 < n →
        ∃ prims, plotEdges (twoTagDoc m n) x y = some prims
        ∧ prims.length = m + n
        ∧ (∃ p ∈ prims, p.stroke = StrokeVal.lit (some (JsVal.str "#FF0000")))
        ∧ (∃ p ∈ prims, p.stroke = StrokeVal.lit (some (JsVal.str "#0000FF")))) := by
  constructor
  · intro data x y es prims hes h
    simp only [plotEdges, hes] at h
    exact renderFromAxes_length x y es prims h
  · intro x y m n hm hn
    refine ⟨_, plotEdges_twoTagDoc x y m n hm hn, ?_, ?_, ?_⟩
    · simp
    · refine ⟨constEdgePrim x y "#FF0000", ?_, rfl⟩
      exact List.mem_append_left _ (List.mem_replicate.mpr ⟨hm.ne', rfl⟩)
    · refine ⟨constEdgePrim x y "#0000FF", ?_, rfl⟩
      exact List.mem_append_right _ (List.mem_replicate.mpr ⟨hn.ne', rfl⟩)

/-- C2 witness: the two-tag scenario at `m = n = 1` under identity
scales. -/
theorem plotEdges_all_tags_rendered_witness :
    (0 : Nat) < 1
  ∧ ∃ prims, plotEdges (twoTagDoc 1 1) (fun v => v) (fun v => v) = some prims
      ∧ prims.length = 1 + 1
      ∧ (∃ p ∈ prims, p.stroke = StrokeVal.lit (some (JsVal.str "#FF0000")))
      ∧ (∃ p ∈ prims, p.stroke = StrokeVal.lit (some (JsVal.str "#0000FF"))) :=
  ⟨Nat.one_pos,
    plotEdges_all_tags_rendered.2 (fun v => v) (fun v => v) 1 1 Nat.one_pos Nat.one_pos⟩

/-! ### Claim C3: colormap priority for edge strokes -/

theorem renderOneEdge_stroke_scaled (x y : ℚ → ℚ) (g : EdgeGroup) (K : Kwargs JsVal)
    (interp : D3Interp) (lo hi : Option JsVal) (i : Nat) (p : EdgePrim)
    (h : renderOneEdge x y g K (some (interp, lo, hi)) i = some p) :
    p.stroke = StrokeVal.scaled interp lo hi (jsIndex (getK K "array") i) := by
  unfold renderOneEdge at h
  cases hc : (g.curves.getD []).get? i with
  | none => rw [hc] at h; cases h
  | some cd =>
    rw [hc] at h
    cases h
    rfl

theorem renderOneEdge_stroke_colorArray (x y : ℚ → ℚ) (g : EdgeGroup) (K : Kwargs JsVal)
    (i : Nat) (p : EdgePrim) (cs : List JsVal)
    (h : renderOneEdge x y g K none i = some p)
    (hcol : getK K "color" = some (JsVal.arr cs)) :
    p.stroke = StrokeVal.lit (cs.get? i) := by
  unfold renderOneEdge at h
  cases hc : (g.curves.getD []).get? i with
  | none => rw [hc] at h; cases h
  | some cd =>
    rw [hc] at h
    cases h
    show (match getK K "color" with
          | some (.arr cs) => StrokeVal.lit (cs.get? i)
          | cv => StrokeVal.lit (some (if jsTruthy cv then cv.getD (.str "black") else .str "black")))
        = StrokeVal.lit (cs.get? i)
    rw [hcol]

theorem renderOneEdge_stroke_colorScalar (x y : ℚ → ℚ) (g : EdgeGroup) (K : Kwargs JsVal)
    (i : Nat) (p : EdgePrim)
    (h : renderOneEdge x y g K none i = some p)
    (hcol : isJsArray (getK K "color") = false) :
    p.stroke = StrokeVal.lit (some (if jsTruthy (getK K "color")
      then (getK K "color").getD (JsVal.str "black") else JsVal.str "black")) := by
  unfold renderOneEdge at h
  cases hc : (g.curves.getD []).get? i with
  | none => rw [hc] at h; cases h
  | some cd =>
    rw [hc] at h
    cases h
    show (match getK K "color" with
          | some (.arr cs) => StrokeVal.lit (cs.get? i)
          | cv => StrokeVal.lit (some (if jsTruthy cv then cv.getD (.str "black") else .str "black")))
        = _
    cases hcv : getK K "color" with
    | none => rfl
    | some v =>
      cases v with
      | null => rfl
      | boolean b => rfl
      | num q => rfl
      | str s => rfl
      | arr elems => rw [hcv] at hcol; simp [isJsArray] at hcol

theorem renderEdgeGroup_run (x y : ℚ → ℚ) (g : EdgeGroup) (prims : List EdgePrim)
    (h : renderEdgeGroup x y g = some prims) (i : Nat) (p : EdgePrim)
    (hp : prims.get? i = some p) :
    ∃ cs, edgeColorScale (normalizeEdgeKwargs (g.edge_kwargs.getD [])) = some cs
    ∧ renderOneEdge x y g (normalizeEdgeKwargs (g.edge_kwargs.getD [])) cs i = some p := by
  simp only [renderEdgeGroup] at h
  cases hcs : edgeColorScale (normalizeEdgeKwargs (g.edge_kwargs.getD [])) with
  | none => rw [hcs] at h; cases h
  | some cs =>
    rw [hcs] at h
    obtain ⟨a, ha, hfa⟩ := mapMOption_get _ _ _ h i p hp
    obtain ⟨hlt, -⟩ := List.get?_eq_some.mp ha
    rw [List.length_range] at hlt
    rw [List.get?_range hlt] at ha
    cases ha
    exact ⟨cs, rfl, hfa⟩

/-- C3: when the normalized edge style carries an `array` key (a numeric
per-edge array, per the data model), every emitted stroke is the
sequential-scale color `colorScale(array[i])`, over domain `clim` when
given and otherwise the computed extent of the full array — overriding
any explicit `color`, which is never consulted; when `array` is absent,
an array-valued `color` is indexed per edge, and otherwise the scalar
`color` (or the default `"black"`) is used. -/
theorem plotEdges_array_colormap_priority (x y : ℚ → ℚ) (g : EdgeGroup)
    (K : Kwargs JsVal) (prims : List EdgePrim)
    (hK : normalizeEdgeKwargs (g.edge_kwargs.getD []) = K)
    (h : renderEdgeGroup x y g = some prims) :
    (∀ vs cv, getK K "array" = some (JsVal.arr vs) → getK K "clim" = some cv →
      jsTruthy (some cv) = true →
      ∀ i p, prims.get? i = some p →
        p.stroke = StrokeVal.scaled (cmapToD3Interpolator (asCmapName (getK K "cmap")))
          (jsIndex (some cv) 0) (jsIndex (some cv) 1) (vs.get? i))
  ∧ (∀ vs, getK K "array" = some (JsVal.arr vs) → getK K "clim" = none →
      ∀ i p, prims.get? i = some p →
        p.stroke = StrokeVal.scaled (cmapToD3Interpolator (asCmapName (getK K "cmap")))
          ((d3extentNums vs).1.map JsVal.num) ((d3extentNums vs).2.map JsVal.num) (vs.get? i))
  ∧ (∀ cs, getK K "array" = none → getK K "color" = some (JsVal.arr cs) →
      ∀ i p, prims.get? i = some p → p.stroke = StrokeVal.lit (cs.get? i))
  ∧ (getK K "array" = none → isJsArray (getK K "color") = false →
      ∀ i p, prims.get? i = some p →
        p.stroke = StrokeVal.lit (some (if jsTruthy (getK K "color")
          then (getK K "color").getD (JsVal.str "black") else JsVal.str "black"))) := by
  subst hK
  refine ⟨?_, ?_, ?_, ?_⟩
  · intro vs cv harr hclim htr i p hp
    have h1 : jsTruthy (getK (normalizeEdgeKwargs (g.edge_kwargs.getD [])) "array") = true := by
      rw [harr]; rfl
    have h2 : jsTruthy (getK (normalizeEdgeKwargs (g.edge_kwargs.getD [])) "clim") = true := by
      rw [hclim]; exact htr
    have hecs : edgeColorScale (normalizeEdgeKwargs (g.edge_kwargs.getD []))
        = some (some (cmapToD3Interpolator (asCmapName
            (getK (normalizeEdgeKwargs (g.edge_kwargs.getD [])) "cmap")),
          jsIndex (some cv) 0, jsIndex (some cv) 1)) := by
      simp [edgeColorScale, h1, hclim, htr]
    obtain ⟨cs, hcs, hone⟩ := renderEdgeGroup_run x y g prims h i p hp
    rw [hecs] at hcs
    cases hcs
    rw [renderOneEdge_stroke_scaled x y g _ _ _ _ i p hone, harr]
    rfl
  · intro vs harr hclim i p hp
    have h1 : jsTruthy (getK (normalizeEdgeKwargs (g.edge_kwargs.getD [])) "array") = true := by
      rw [harr]; rfl
    have h2 : jsTruthy (getK (normalizeEdgeKwargs (g.edge_kwargs.getD [])) "clim") = false := by
      rw [hclim]; rfl
    have hecs : edgeColorScale (normalizeEdgeKwargs (g.edge_kwargs.getD []))
        = some (some (cmapToD3Interpolator (asCmapName
            (getK (normalizeEdgeKwargs (g.edge_kwargs.getD [])) "cmap")),
          (d3extentNums vs).1.map JsVal.num, (d3extentNums vs).2.map JsVal.num)) := by
      simp [edgeColorScale, jsTruthy, hclim, harr]
    obtain ⟨cs, hcs, hone⟩ := renderEdgeGroup_run x y g prims h i p hp
    rw [hecs] at hcs
    cases hcs
    rw [renderOneEdge_stroke_scaled x y g _ _ _ _ i p hone, harr]
    rfl
  · intro cs harr hcol i p hp
    have h1 : jsTruthy (getK (normalizeEdgeKwargs (g.edge_kwargs.getD [])) "array") = false := by
      rw [harr]; rfl
    have hecs : edgeColorScale (normalizeEdgeKwargs (g.edge_kwargs.getD [])) = some none := by
      simp [edgeColorScale, h1]
    obtain ⟨cs', hcs, hone⟩ := renderEdgeGroup_run x y g prims h i p hp
    rw [hecs] at hcs
    cases hcs
    exact renderOneEdge_stroke_colorArray x y g _ i p cs hone hcol
  · intro harr hcol i p hp
    have h1 : jsTruthy (getK (normalizeEdgeKwargs (g.edge_kwargs.getD [])) "array") = false := by
      rw [harr]; rfl
    have hecs : edgeColorScale (normalizeEdgeKwargs (g.edge_kwargs.getD [])) = some none := by
      simp [edgeColorScale, h1]
    obtain ⟨cs', hcs, hone⟩ := renderEdgeGroup_run x y g prims h i p hp
    rw [hecs] at hcs
    cases hcs
    exact renderOneEdge_stroke_colorScalar x y g _ i p hone hcol

/-- C3 witness: the group with `array`, `cmap`, `clim` and an explicit
`color` all present, under constant-zero scales: its single emitted
stroke is the cividis scale over the `clim` domain applied to
`array[0]` — never the explicit color. -/
theorem plotEdges_array_colormap_priority_witness :
    arrayClimPrim.stroke
      = StrokeVal.scaled
          (cmapToD3Interpolator (asCmapName
            (getK (normalizeEdgeKwargs (arrayClimGroup.edge_kwargs.getD [])) "cmap")))
          (jsIndex (some (JsVal.arr [JsVal.num 0, JsVal.num 10])) 0)
          (jsIndex (some (JsVal.arr [JsVal.num 0, JsVal.num 10])) 1)
          ([JsVal.num 7].get? 0) :=
  (plotEdges_array_colormap_priority (fun _ => 0) (fun _ => 0) arrayClimGroup
      (normalizeEdgeKwargs (arrayClimGroup.edge_kwargs.getD [])) [arrayClimPrim]
      rfl rfl).1
    [JsVal.num 7] (JsVal.arr [JsVal.num 0, JsVal.num 10]) rfl rfl rfl 0 arrayClimPrim rfl

/-! ### Claim C8: recovered-locally cases -/

theorem renderOneEdge_defaults (x y : ℚ → ℚ) (g : EdgeGroup) (i : Nat) (p : EdgePrim)
    (h : renderOneEdge x y g [] none i = some p) :
    p.stroke = StrokeVal.lit (some (JsVal.str "black"))
  ∧ p.strokeOpacity = some (JsVal.num (1/2))
  ∧ p.strokeWidth = some (JsVal.num (3/2))
  ∧ p.dasharray = none := by
  unfold renderOneEdge at h
  cases hc : (g.curves.getD []).get? i with
  | none => rw [hc] at h; cases h
  | some cd =>
    rw [hc] at h
    cases h
    exact ⟨rfl, rfl, rfl, rfl⟩

/-- C8: the recovered-locally cases complete without failure: an axis with
an empty node list emits zero node primitives; absent `node_viz_kwargs`
renders all nodes with the documented defaults; an edge group without
`edge_kwargs` (and with `curves` covering `ids`) renders with the default
edge style; a group whose `ids` is absent or empty is skipped and the tag
loop continues; an axis without `angle` emits no label; unrecognized
colormap and linestyle names fall back to viridis and to no dash; and a
document combining an angle-less axis, no nodes, no `node_viz_kwargs` and
a style-only placeholder edge group renders completely, emitting exactly
its one axis line. -/
theorem rendering_recovers_locally :
    (∀ (nvk : Option (Kwargs (Kwargs JsVal))) (x y : ℚ → ℚ) (name : String) (ax : AxisSpec),
        ax.nodes.x = [] → nodesForAxis nvk x y name ax = [])
  ∧ (∀ (data : HivePlotData) (x y : ℚ → ℚ), data.node_viz_kwargs = none →
        ∀ p ∈ plotNodes data x y,
          p.fill = FillVal.lit (some (JsVal.str "black"))
        ∧ p.fillOpacity = some (JsVal.num (4/5))
        ∧ p.stroke = some (JsVal.str "none")
        ∧ p.sVal = some (JsVal.num 20))
  ∧ (∀ (x y : ℚ → ℚ) (g : EdgeGroup) (ids : List (String × String))
        (cs : List (List (ℚ × ℚ))),
        g.edge_kwargs = none → g.ids = some ids → g.curves = some cs →
        ids.length ≤ cs.length →
        ∃ ps, renderEdgeGroup x y g = some ps
        ∧ ps.length = ids.length
        ∧ ∀ p ∈ ps, p.stroke = StrokeVal.lit (some (JsVal.str "black"))
            ∧ p.strokeOpacity = some (JsVal.num (1/2))
            ∧ p.strokeWidth = some (JsVal.num (3/2))
            ∧ p.dasharray = none)
  ∧ (∀ (x y : ℚ → ℚ) (t : String) (g : EdgeGroup) (rest : List (String × EdgeGroup)),
        g.ids = none ∨ g.ids = some [] →
        renderTagList x y ((t, g) :: rest) = renderTagList x y rest)
  ∧ (∀ (x y : ℚ → ℚ) (opts : LabelOptions) (name : String) (ax : AxisSpec),
        ax.angle = none → labelForAxis x y opts (name, ax) = [])
  ∧ cmapToD3Interpolator (some "not_a_real_cmap") = D3Interp.interpolateViridis
  ∧ linestyleToDasharray "not_a_real_style" = none
  ∧ visualizeHivePlot degenerateDoc (-5, 5) (-5, 5) 0 0 0 0 450 450 {}
      = some [Prim.axis
          { p1 := (scaleLinear (-5, 5) (0, 450 - 0) 0, scaleLinear (-5, 5) (450 - 0, 0) 0),
            p2 := (scaleLinear (-5, 5) (0, 450 - 0) 1, scaleLinear (-5, 5) (450 - 0, 0) 1) }] := by
  refine ⟨?_, ?_, ?_, ?_, ?_, rfl, rfl, rfl⟩
  · intro nvk x y name ax hx
    simp [nodesForAxis, hx]
  · intro data x y hnvk p hp
    simp only [plotNodes, hnvk] at hp
    obtain ⟨entry, hentry, hpmem⟩ := List.mem_flatMap.mp hp
    simp only [nodesForAxis] at hpmem
    obtain ⟨jp, hjp, hrec⟩ := List.mem_map.mp hpmem
    subst hrec
    exact ⟨rfl, rfl, rfl, rfl⟩
  · intro x y g ids cs hkw hids hcurves hlen
    have hnum : ((g.ids.getD []).length) = ids.length := by rw [hids]; rfl
    have hK : normalizeEdgeKwargs (g.edge_kwargs.getD []) = [] := by rw [hkw]; rfl
    have hcs : edgeColorScale (normalizeEdgeKwargs (g.edge_kwargs.getD [])) = some none := by
      rw [hK]; rfl
    have hsome : ∀ i ∈ List.range ids.length,
        (renderOneEdge x y g [] none i).isSome = true := by
      intro i hi
      have hilt : i < ids.length := List.mem_range.mp hi
      unfold renderOneEdge
      cases hg : (g.curves.getD []).get? i with
      | none =>
        have := List.get?_eq_none.mp hg
        rw [hcurves] at this
        simp only [Option.getD_some] at this
        omega
      | some cd => rfl
    obtain ⟨ps, hps⟩ := mapMOption_isSome _ _ hsome
    have hrg : renderEdgeGroup x y g = some ps := by
      simp only [renderEdgeGroup, hK, hcs, hnum]
      exact hps
    refine ⟨ps, hrg, ?_, ?_⟩
    · rw [renderEdgeGroup_length x y g ps hrg, tagIdsLen, hids]
      rfl
    · intro p hp
      obtain ⟨i, hi, hone⟩ := mapMOption_mem _ _ _ hps p hp
      exact renderOneEdge_defaults x y g i p hone
  · intro x y t g rest hids
    rcases hids with hids | hids
    · simp [renderTagList, hids]
    · simp [renderTagList, hids]
  · intro x y opts name ax hangle
    simp [labelForAxis, hangle]

/-- C8 witness: the empty-node-list conjunct applied to a concrete axis
with no nodes, and the default-style edge conjunct applied to a concrete
group with no `edge_kwargs`. -/
theorem rendering_recovers_locally_witness :
    nodesForAxis none (fun v => v) (fun v => v) "A"
      { start := (0, 0), end_ := (1, 1), angle := none, long_name := none,
        nodes := { x := [], y := [] } } = [] :=
  rendering_recovers_locally.1 none (fun v => v) (fun v => v) "A"
    { start := (0, 0), end_ := (1, 1), angle := none, long_name := none,
      nodes := { x := [], y := [] } } rfl

/-! ### Claim C10: renderer invocation order -/

theorem pairwise_kind_map {α : Type} (f : α → Prim) (k : Nat)
    (hf : ∀ a, primKind (f a) = k) (l : List α) :
    List.Pairwise (fun u v => primKind u ≤ primKind v) (l.map f) := by
  rw [List.pairwise_map]
  induction l with
  | nil => exact List.Pairwise.nil
  | cons a rest ih =>
    refine List.Pairwise.cons ?_ ih
    intro b hb
    rw [hf a, hf b]

theorem pairwise_prim_kinds (eps : List EdgePrim) (aps : List AxisPrim)
    (nps : List NodePrim) (lps : List LabelPrim) :
    List.Pairwise (fun u v => primKind u ≤ primKind v)
      (eps.map Prim.edge ++ aps.map Prim.axis ++ nps.map Prim.node ++ lps.map Prim.label) := by
  have he : ∀ v ∈ eps.map Prim.edge, primKind v = 0 := by
    intro v hv
    obtain ⟨e, -, rfl⟩ := List.mem_map.mp hv
    rfl
  have ha : ∀ v ∈ aps.map Prim.axis, primKind v = 1 := by
    intro v hv
    obtain ⟨a, -, rfl⟩ := List.mem_map.mp hv
    rfl
  have hn : ∀ v ∈ nps.map Prim.node, primKind v = 2 := by
    intro v hv
    obtain ⟨n, -, rfl⟩ := List.mem_map.mp hv
    rfl
  have hl : ∀ v ∈ lps.map Prim.label, primKind v = 3 := by
    intro v hv
    obtain ⟨l, -, rfl⟩ := List.mem_map.mp hv
    rfl
  rw [List.append_assoc, List.append_assoc]
  refine List.pairwise_append.mpr ⟨pairwise_kind_map Prim.edge 0 (fun _ => rfl) eps, ?_, ?_⟩
  · refine List.pairwise_append.mpr ⟨pairwise_kind_map Prim.axis 1 (fun _ => rfl) aps, ?_, ?_⟩
    · refine List.pairwise_append.mpr
        ⟨pairwise_kind_map Prim.node 2 (fun _ => rfl) nps,
         pairwise_kind_map Prim.label 3 (fun _ => rfl) lps, ?_⟩
      intro u hu v hv
      rw [hn u hu, hl v hv]
      omega
    · intro u hu v hv
      rcases List.mem_append.mp hv with hv | hv
      · rw [ha u hu, hn v hv]; omega
      · rw [ha u hu, hl v hv]; omega
  · intro u hu v hv
    rw [he u hu]
    exact Nat.zero_le _

theorem prim_order_of_pairwise (ps : List Prim)
    (hps : List.Pairwise (fun u v => primKind u ≤ primKind v) ps)
    (i j : Nat) (u v : Prim) (hi : ps.get? i = some u) (hj : ps.get? j = some v)
    (hk : primKind u < primKind v) : i < j := by
  obtain ⟨hilen, hgi⟩ := List.get?_eq_some.mp hi
  obtain ⟨hjlen, hgj⟩ := List.get?_eq_some.mp hj
  by_contra hij
  push_neg at hij
  rcases Nat.lt_or_ge j i with hlt | hge
  · have hrel := List.pairwise_iff_get.mp hps ⟨j, hjlen⟩ ⟨i, hilen⟩ (Fin.mk_lt_mk.mpr hlt)
    rw [hgi, hgj] at hrel
    omega
  · have hij' : i = j := le_antisymm hge hij
    subst hij'
    rw [hgi] at hgj
    rw [hgj] at hk
    omega

/-- C10: `visualizeHivePlot` invokes the renderers in the fixed order
edges, axes, nodes, labels: in the emitted primitive list every edge
precedes every axis line, every axis line precedes every node circle, and
every node circle precedes every label; and when `options.showLabels` is
false no label primitive is emitted at all. -/
theorem visualizeHivePlot_render_order
    (data : HivePlotData) (xE yE : ℚ × ℚ) (top bottom left right width height : ℚ)
    (opts : VizOptions) (ps : List Prim)
    (hv : visualizeHivePlot data xE yE top bottom left right width height opts = some ps) :
    (∀ i j e a, ps.get? i = some (Prim.edge e) → ps.get? j = some (Prim.axis a) → i < j)
  ∧ (∀ i j a n, ps.get? i = some (Prim.axis a) → ps.get? j = some (Prim.node n) → i < j)
  ∧ (∀ i j n lb, ps.get? i = some (Prim.node n) → ps.get? j = some (Prim.label lb) → i < j)
  ∧ (opts.showLabels = false → ∀ lb, Prim.label lb ∉ ps) := by
  simp only [visualizeHivePlot] at hv
  cases he : plotEdges data (scaleLinear xE (left, width - right))
      (scaleLinear yE (height - bottom, top)) with
  | none => rw [he] at hv; cases hv
  | some eps =>
    rw [he] at hv
    cases hv
    have hpw := pairwise_prim_kinds eps
      (plotAxes data (scaleLinear xE (left, width - right)) (scaleLinear yE (height - bottom, top)))
      (plotNodes data (scaleLinear xE (left, width - right)) (scaleLinear yE (height - bottom, top)))
      (if opts.showLabels then
        plotLabels data (scaleLinear xE (left, width - right)) (scaleLinear yE (height - bottom, top))
          { labelsBuffer := opts.labelsBuffer, fontSize := opts.fontSize }
       else [])
    refine ⟨?_, ?_, ?_, ?_⟩
    · intro i j e a hi hj
      exact prim_order_of_pairwise _ hpw i j _ _ hi hj (show (0 : Nat) < 1 by decide)
    · intro i j a n hi hj
      exact prim_order_of_pairwise _ hpw i j _ _ hi hj (show (1 : Nat) < 2 by decide)
    · intro i j n lb hi hj
      exact prim_order_of_pairwise _ hpw i j _ _ hi hj (show (2 : Nat) < 3 by decide)
    · intro hsl lb hmem
      rw [hsl] at hmem
      simp only [Bool.false_eq_true, if_false, List.map_nil, List.append_nil] at hmem
      rcases List.mem_append.mp hmem with hmem | hmem
      · rcases List.mem_append.mp hmem with hmem | hmem
        · obtain ⟨e, -, heq⟩ := List.mem_map.mp hmem
          cases heq
        · obtain ⟨a, -, heq⟩ := List.mem_map.mp hmem
          cases heq
      · obtain ⟨n, -, heq⟩ := List.mem_map.mp hmem
        cases heq

/-- C10 witness: the empty document with `showLabels := false` renders to
an empty primitive list, and the theorem's no-label conclusion applies to
it. -/
theorem visualizeHivePlot_render_order_witness :
    visualizeHivePlot { axes := [], edges := none, node_viz_kwargs := none }
      (-5, 5) (-5, 5) 0 0 0 0 450 450 { showLabels := false } = some []
  ∧ Prim.label { lx := 0, ly := 0, textAnchor := "start", dominantBaseline := "auto",
                 fontSize := 14, textContent := "A" } ∉ ([] : List Prim) :=
  ⟨rfl,
    (visualizeHivePlot_render_order { axes := [], edges := none, node_viz_kwargs := none }
      (-5, 5) (-5, 5) 0 0 0 0 450 450 { showLabels := false } [] rfl).2.2.2 rfl _⟩
